import Mathlib

/-!
Shallow embedding of `src/risk_analyzer.py` (wallet-risk-scorer).
Monetary amounts, prices and normalized feature values are modelled as
exact rationals (ℚ); timestamps as integer seconds since epoch.
The remote ledger API is modelled as data: an `Option ApiResponse`
(`none` = transport failure), and the parallel batch fetch as a plain
function from wallet address to response (the per-wallet fetches are
independent, so the thread pool's interleaving is unobservable).
-/

namespace RiskAnalyzer

/-- Event kind produced by the fetcher: `Mint` (supply) or `Redeem` (withdraw).
Mirrors the string tags 'Mint' / 'Redeem' at line 89 of the source. -/
inductive EventType where
  | Mint : EventType
  | Redeem : EventType
deriving DecidableEq

/-- One USD-valued event record, as appended at lines 91-96 of the source. -/
structure Event where
  timestamp : Int
  event_type : EventType
  asset_symbol : String
  value_usd : ℚ
deriving DecidableEq

/-- Properties of one Compound V2 cToken (source lines 39-52). -/
structure TokenInfo where
  symbol : String
  underlying_decimals : Nat
  price_usd : ℚ
deriving DecidableEq

/-- `get_compound_v2_ctokens` (source lines 37-52): the static registry of
Compound V2 cTokens, keyed by lower-case contract address. -/
def get_compound_v2_ctokens : List (String × TokenInfo) :=
  [ ("0x4ddc2d193948926d02f9b1fe9e1daa0718270ed5", ⟨"cETH", 18, 3500⟩),
    ("0x39aa39c021dfbae8fac545936693ac917d5e7563", ⟨"cUSDC", 6, 1⟩),
    ("0x5d3a536e4d6dbd6114cc1ead35777bab948e3643", ⟨"cDAI", 18, 1⟩),
    ("0xf650c3d88d12db855b8bf7d11be6c55a4e07dcc9", ⟨"cUSDT", 6, 1⟩),
    ("0xc11b1268c1a384e55c48c2391d8d480264a3a7f4", ⟨"cWBTC", 8, 65000⟩),
    ("0x6c8c6b02e7b2be14d4fa6022dfd6d75921d90e4e", ⟨"cBAT", 18, (1 : ℚ) / 4⟩) ]

/-- Registry lookup: the source checks `contract_address in ctoken_addresses`
and then indexes `ctoken_map[contract_address]` (lines 83-84), which is
exactly an association-list lookup on the lower-cased address. -/
def lookup_ctoken (addr : String) : Option TokenInfo :=
  (get_compound_v2_ctokens.find? (fun p => p.1 = addr)).map Prod.snd

/-- One raw token-transfer record as returned by the ledger API; only the
fields the source reads: `contractAddress`, the destination address `to`
(named `toAddr` here), `value`, and `timeStamp`.
`value` is the raw non-negative ERC-20 integer amount. -/
structure RawTx where
  contractAddress : String
  toAddr : String
  value : Nat
  timeStamp : Int
deriving DecidableEq

/-- A decoded API response body: the `status` string and the `result` list
(source lines 67-80). -/
structure ApiResponse where
  status : String
  result : List RawTx
deriving DecidableEq

/-- Python `str.lower()`, character by character. The strings compared in the
source are hex addresses (ASCII), for which `Char.toLower` agrees with
Python's `lower`. -/
def lower (s : String) : String :=
  ⟨s.data.map Char.toLower⟩

/-- Classification at source line 89:
`event_type = 'Mint' if tx['to'].lower() == wallet_address.lower() else 'Redeem'`. -/
def classify_event (wallet_address : String) (tx : RawTx) : EventType :=
  if lower tx.toAddr = lower wallet_address then EventType.Mint else EventType.Redeem

/-- USD value of one retained transfer (source lines 85-95):
`value_adjusted = value_raw / 10 ** underlying_decimals`, then
`value_usd = value_adjusted * price_usd`. -/
def tx_value_usd (tx : RawTx) (info : TokenInfo) : ℚ :=
  (tx.value : ℚ) / 10 ^ info.underlying_decimals * info.price_usd

/-- `fetch_real_transactions` (source lines 55-101), with the network modelled
as data: `none` models a transport-level failure (the `except` branch at
lines 68-70, which returns an empty frame); a response whose status is not
'1' also yields the empty list (lines 72-73). Otherwise each record whose
contract address (lower-cased) is in the registry becomes one `Event`;
records with unknown contracts are dropped (line 83). An empty surviving
list is returned as-is (lines 98-101). -/
def fetch_real_transactions (wallet_address : String) (resp : Option ApiResponse) :
    List Event :=
  match resp with
  | none => []
  | some data =>
    if data.status = "1" then
      data.result.filterMap (fun tx =>
        (lookup_ctoken (lower tx.contractAddress)).map (fun info =>
          ⟨tx.timeStamp, classify_event wallet_address tx, info.symbol,
            tx_value_usd tx info⟩))
    else []

/-- The per-wallet feature record built by `calculate_features`
(source lines 110-130). -/
structure Features where
  liquidation_count : Nat
  total_supplied_usd : ℚ
  total_borrowed_usd : ℚ
  total_liquidated_usd : ℚ
  distinct_assets_borrowed : Nat
  wallet_age_days : Int
deriving DecidableEq

/-- `df['timestamp'].min()` over a wallet's events (only used on a nonempty
list; the empty case is guarded at source line 112). -/
def minTimestamp (events : List Event) : Int :=
  match events with
  | [] => 0
  | e :: rest => rest.foldl (fun m x => min m x.timestamp) e.timestamp

/-- `calculate_features` (source lines 110-130). `wallet_age_days` is
`(datetime.now() - df['timestamp'].min()).days`: the floor of the elapsed
seconds divided by 86400 (`Int.fdiv` floors), `distinct_assets_borrowed` is
`df['asset_symbol'].nunique()`. -/
def calculate_features (now : Int) (events : List Event) : Features :=
  if events = [] then ⟨0, 0, 0, 0, 0, 0⟩
  else
    let total_supplied :=
      ((events.filter (fun e => e.event_type = EventType.Mint)).map Event.value_usd).sum
    ⟨0, total_supplied, total_supplied * 0.4, 0,
      (events.map Event.asset_symbol).dedup.length,
      Int.fdiv (now - minTimestamp events) 86400⟩

/-- `health_factor_proxy` (source line 163):
`total_borrowed_usd / (total_supplied_usd + 1e-6)`. -/
def healthFactorProxy (f : Features) : ℚ :=
  f.total_borrowed_usd / (f.total_supplied_usd + 1 / 1000000)

/-- Batch column `liquidation_count`, cast to ℚ as pandas does. -/
def col_liq (feats : List Features) : List ℚ :=
  feats.map (fun f => (f.liquidation_count : ℚ))

/-- Batch column `health_factor_proxy`. -/
def col_health (feats : List Features) : List ℚ :=
  feats.map healthFactorProxy

/-- Batch column `total_liquidated_usd`. -/
def col_liquidated (feats : List Features) : List ℚ :=
  feats.map Features.total_liquidated_usd

/-- Batch column `distinct_assets_borrowed`, cast to ℚ. -/
def col_distinct (feats : List Features) : List ℚ :=
  feats.map (fun f => (f.distinct_assets_borrowed : ℚ))

/-- Batch column `wallet_age_days`, cast to ℚ. -/
def col_age (feats : List Features) : List ℚ :=
  feats.map (fun f => (f.wallet_age_days : ℚ))

/-- Minimum of a column (0 on the empty batch, which the source never
reaches: the empty wallet list returns early at line 136). -/
def colMin (xs : List ℚ) : ℚ :=
  match xs with
  | [] => 0
  | x :: rest => rest.foldl min x

/-- Maximum of a column. -/
def colMax (xs : List ℚ) : ℚ :=
  match xs with
  | [] => 0
  | x :: rest => rest.foldl max x

/-- sklearn `MinMaxScaler.fit_transform` on one column (source lines 168-169):
`(x - min) / (max - min)`, where a zero range is replaced by 1
(`_handle_zeros_in_scale`), so a constant column maps to all zeros. -/
def minMaxScale (xs : List ℚ) (x : ℚ) : ℚ :=
  (x - colMin xs) / (if colMax xs - colMin xs = 0 then 1 else colMax xs - colMin xs)

/-- The weighted sum at source lines 172-179 for one wallet's features `f`
within the batch `feats`: each of the 5 columns is min-max normalized
across the batch, the `wallet_age_days` column is inverted (`1 - n`,
line 174), and the fixed weights 0.40 / 0.30 / 0.15 / 0.10 / 0.05 are
applied. -/
def weightedSum (feats : List Features) (f : Features) : ℚ :=
  0.40 * minMaxScale (col_liq feats) (f.liquidation_count : ℚ)
  + 0.30 * minMaxScale (col_health feats) (healthFactorProxy f)
  + 0.15 * minMaxScale (col_liquidated feats) f.total_liquidated_usd
  + 0.10 * minMaxScale (col_distinct feats) (f.distinct_assets_borrowed : ℚ)
  + 0.05 * (1 - minMaxScale (col_age feats) (f.wallet_age_days : ℚ))

/-- numpy `.astype(int)` on a float: truncation toward zero (source line 182).
For the non-negative scores produced here this coincides with `Int.floor`. -/
def astype_int (q : ℚ) : Int :=
  if 0 ≤ q then ⌊q⌋ else ⌈q⌉

/-- The Scorer core (source lines 153-183) on a fully materialized batch:
given `(wallet_id, events)` pairs in input order, compute one `Features`
per wallet, then one `(wallet_id, score)` pair per wallet in the same
order, with `score = astype_int (weightedSum * 1000)`. -/
def scoreBatch (now : Int) (input : List (String × List Event)) :
    List (String × Int) :=
  let feats := input.map (fun p => calculate_features now p.2)
  input.map (fun p =>
    (p.1, astype_int (weightedSum feats (calculate_features now p.2) * 1000)))

/-- Python truthiness of the API key at line 137 (`if not api_key`):
true when the key is absent (`None`) or the empty string. -/
def key_missing (api_key : Option String) : Bool :=
  match api_key with
  | none => true
  | some s => s = ""

/-- `generate_risk_scores` (source lines 133-183) with the wallet list already
resolved and the network modelled as a pure function `net` from wallet
address to optional response. The source returns an empty frame when the
wallet list is empty (line 136) and, after that, when the API key is
missing (lines 137-139); otherwise it fetches per wallet and scores the
batch. -/
def generate_risk_scores (now : Int) (wallet_addresses : List String)
    (api_key : Option String) (net : String → Option ApiResponse) :
    List (String × Int) :=
  if wallet_addresses = [] then []
  else if key_missing api_key then []
  else
    scoreBatch now
      (wallet_addresses.map (fun w => (w, fetch_real_transactions w (net w))))

/-- The per-wallet composition used by the pipeline (source lines 156-157):
the Feature Extractor applied to the wallet's fetched events. -/
def wallet_features (now : Int) (wallet_address : String)
    (resp : Option ApiResponse) : Features :=
  calculate_features now (fetch_real_transactions wallet_address resp)

/-! ### Basic facts about batch minima and maxima -/

lemma foldl_min_le_init (l : List ℚ) (a : ℚ) : l.foldl min a ≤ a := by
  induction l generalizing a with
  | nil => exact le_refl a
  | cons y l ih => exact le_trans (ih (min a y)) (min_le_left a y)

lemma foldl_min_le_mem (l : List ℚ) (a x : ℚ) (hx : x ∈ l) : l.foldl min a ≤ x := by
  induction l generalizing a with
  | nil => cases hx
  | cons y l ih =>
    rcases List.mem_cons.mp hx with h | h
    · subst h
      exact le_trans (foldl_min_le_init l (min a x)) (min_le_right a x)
    · exact ih (min a y) h

lemma init_le_foldl_max (l : List ℚ) (a : ℚ) : a ≤ l.foldl max a := by
  induction l generalizing a with
  | nil => exact le_refl a
  | cons y l ih => exact le_trans (le_max_left a y) (ih (max a y))

lemma mem_le_foldl_max (l : List ℚ) (a x : ℚ) (hx : x ∈ l) : x ≤ l.foldl max a := by
  induction l generalizing a with
  | nil => cases hx
  | cons y l ih =>
    rcases List.mem_cons.mp hx with h | h
    · subst h
      exact le_trans (le_max_right a x) (init_le_foldl_max l (max a x))
    · exact ih (max a y) h

lemma colMin_le_mem (xs : List ℚ) (x : ℚ) (hx : x ∈ xs) : colMin xs ≤ x := by
  match xs with
  | [] => cases hx
  | y :: l =>
    rcases List.mem_cons.mp hx with h | h
    · subst h
      exact foldl_min_le_init l x
    · exact foldl_min_le_mem l y x h

lemma mem_le_colMax (xs : List ℚ) (x : ℚ) (hx : x ∈ xs) : x ≤ colMax xs := by
  match xs with
  | [] => cases hx
  | y :: l =>
    rcases List.mem_cons.mp hx with h | h
    · subst h
      exact init_le_foldl_max l x
    · exact mem_le_foldl_max l y x h

/-! ### Normalization bounds -/

lemma minMaxScale_nonneg (xs : List ℚ) (x : ℚ) (hx : x ∈ xs) :
    0 ≤ minMaxScale xs x := by
  have hmin := colMin_le_mem xs x hx
  have hmax := mem_le_colMax xs x hx
  unfold minMaxScale
  split
  · linarith
  · rename_i h
    have hpos : 0 < colMax xs - colMin xs := by
      rcases lt_or_eq_of_le (le_trans hmin hmax) with hlt | heq
      · linarith
      · exact absurd (by linarith) h
    exact div_nonneg (by linarith) (le_of_lt hpos)

lemma minMaxScale_le_one (xs : List ℚ) (x : ℚ) (hx : x ∈ xs) :
    minMaxScale xs x ≤ 1 := by
  have hmin := colMin_le_mem xs x hx
  have hmax := mem_le_colMax xs x hx
  unfold minMaxScale
  split
  · rename_i h
    have : x - colMin xs ≤ 0 := by linarith
    linarith [div_nonneg (by linarith : (0:ℚ) ≤ colMin xs - x) (by norm_num : (0:ℚ) ≤ 1)]
  · rename_i h
    have hpos : 0 < colMax xs - colMin xs := by
      rcases lt_or_eq_of_le (le_trans hmin hmax) with hlt | heq
      · linarith
      · exact absurd (by linarith) h
    rw [div_le_one hpos]
    linarith

lemma minMaxScale_tie (xs : List ℚ) (x : ℚ) (hx : x ∈ xs)
    (h : colMin xs = colMax xs) : minMaxScale xs x = 0 := by
  have hmin := colMin_le_mem xs x hx
  have hmax := mem_le_colMax xs x hx
  have hx0 : x = colMin xs := le_antisymm (h ▸ hmax) hmin
  unfold minMaxScale
  rw [hx0]
  simp

lemma weightedSum_nonneg (feats : List Features) (f : Features) (hf : f ∈ feats) :
    0 ≤ weightedSum feats f := by
  have m1 : (f.liquidation_count : ℚ) ∈ col_liq feats := List.mem_map_of_mem _ hf
  have m2 : healthFactorProxy f ∈ col_health feats := List.mem_map_of_mem _ hf
  have m3 : f.total_liquidated_usd ∈ col_liquidated feats := List.mem_map_of_mem _ hf
  have m4 : (f.distinct_assets_borrowed : ℚ) ∈ col_distinct feats :=
    List.mem_map_of_mem _ hf
  have m5 : (f.wallet_age_days : ℚ) ∈ col_age feats := List.mem_map_of_mem _ hf
  have b1 := minMaxScale_nonneg _ _ m1
  have b2 := minMaxScale_nonneg _ _ m2
  have b3 := minMaxScale_nonneg _ _ m3
  have b4 := minMaxScale_nonneg _ _ m4
  have b5 := minMaxScale_le_one _ _ m5
  unfold weightedSum
  nlinarith

lemma weightedSum_le_one (feats : List Features) (f : Features) (hf : f ∈ feats) :
    weightedSum feats f ≤ 1 := by
  have m1 : (f.liquidation_count : ℚ) ∈ col_liq feats := List.mem_map_of_mem _ hf
  have m2 : healthFactorProxy f ∈ col_health feats := List.mem_map_of_mem _ hf
  have m3 : f.total_liquidated_usd ∈ col_liquidated feats := List.mem_map_of_mem _ hf
  have m4 : (f.distinct_assets_borrowed : ℚ) ∈ col_distinct feats :=
    List.mem_map_of_mem _ hf
  have m5 : (f.wallet_age_days : ℚ) ∈ col_age feats := List.mem_map_of_mem _ hf
  have b1 := minMaxScale_le_one _ _ m1
  have b2 := minMaxScale_le_one _ _ m2
  have b3 := minMaxScale_le_one _ _ m3
  have b4 := minMaxScale_le_one _ _ m4
  have b5 := minMaxScale_nonneg _ _ m5
  unfold weightedSum
  nlinarith

lemma astype_int_eq_floor (q : ℚ) (h : 0 ≤ q) : astype_int q = ⌊q⌋ := by
  unfold astype_int
  exact if_pos h

/-! ### Claim theorems (with shared helper lemmas above) -/

/-- C2: for every batch and every wallet in it, the score emitted by the
Scorer is the integer `⌊weighted_sum * 1000⌋` for that wallet's weighted
sum of the five normalized features (weights 0.40 / 0.30 / 0.15 / 0.10 /
0.05), and it lies in [0, 1000]. -/
theorem score_eq_floor_weighted_sum_in_range (now : Int)
    (input : List (String × List Event)) (p : String × Int)
    (hp : p ∈ scoreBatch now input) :
    ∃ f ∈ input.map (fun q => calculate_features now q.2),
      p.2 = ⌊weightedSum (input.map (fun q => calculate_features now q.2)) f * 1000⌋ ∧
      0 ≤ p.2 ∧ p.2 ≤ 1000 := by
  simp only [scoreBatch] at hp
  rcases List.mem_map.mp hp with ⟨a, ha, rfl⟩
  have hmem : calculate_features now a.2 ∈ input.map (fun q => calculate_features now q.2) :=
    List.mem_map_of_mem _ ha
  have h0 := weightedSum_nonneg _ _ hmem
  have h1 := weightedSum_le_one _ _ hmem
  have h0' : 0 ≤ weightedSum (input.map (fun q => calculate_features now q.2))
      (calculate_features now a.2) * 1000 := by nlinarith
  refine ⟨calculate_features now a.2, hmem, ?_, ?_, ?_⟩
  · exact astype_int_eq_floor _ h0'
  · show (0 : Int) ≤ astype_int (weightedSum (input.map (fun q => calculate_features now q.2))
      (calculate_features now a.2) * 1000)
    rw [astype_int_eq_floor _ h0']
    exact Int.floor_nonneg.mpr h0'
  · show astype_int (weightedSum (input.map (fun q => calculate_features now q.2))
      (calculate_features now a.2) * 1000) ≤ 1000
    rw [astype_int_eq_floor _ h0']
    calc ⌊weightedSum (input.map (fun q => calculate_features now q.2))
            (calculate_features now a.2) * 1000⌋
        ≤ ⌊(1000 : ℚ)⌋ := Int.floor_le_floor (by nlinarith)
      _ = 1000 := by norm_num

/-- Witness for C2: in the concrete batch `[("a", [])]` the produced pair is
`("a", 50)`, whose score is the floor of its weighted sum times 1000 and
lies in [0, 1000]. -/
theorem score_eq_floor_weighted_sum_in_range_witness :
    ∃ f ∈ [("a", ([] : List Event))].map (fun q => calculate_features 0 q.2),
      (50 : Int) = ⌊weightedSum ([("a", ([] : List Event))].map
          (fun q => calculate_features 0 q.2)) f * 1000⌋ ∧
      (0 : Int) ≤ 50 ∧ (50 : Int) ≤ 1000 :=
  score_eq_floor_weighted_sum_in_range 0 [("a", [])] ("a", 50) (by
    norm_num [scoreBatch, weightedSum, minMaxScale, colMin, colMax, col_liq, col_health,
      col_liquidated, col_distinct, col_age, calculate_features, healthFactorProxy,
      astype_int])

/-- C3: for each of the 5 feature columns of a batch, the normalization is
`(x - min) / (max - min)` whenever the column has distinct min and max,
every normalized value lies in [0, 1], and a column whose batch min equals
its batch max normalizes to exactly 0 for every wallet. -/
theorem column_normalization_bounds (feats : List Features) (xs : List ℚ)
    (_hxs : xs = col_liq feats ∨ xs = col_health feats ∨ xs = col_liquidated feats
      ∨ xs = col_distinct feats ∨ xs = col_age feats)
    (x : ℚ) (hx : x ∈ xs) :
    (colMin xs ≠ colMax xs →
      minMaxScale xs x = (x - colMin xs) / (colMax xs - colMin xs)) ∧
    0 ≤ minMaxScale xs x ∧ minMaxScale xs x ≤ 1 ∧
    (colMin xs = colMax xs → minMaxScale xs x = 0) := by
  refine ⟨?_, minMaxScale_nonneg xs x hx, minMaxScale_le_one xs x hx,
    minMaxScale_tie xs x hx⟩
  intro hne
  unfold minMaxScale
  rw [if_neg (fun h0 => hne (by linarith))]

/-- Witness for C3: the `liquidation_count` column of the concrete one-wallet
batch, at its own member 0. -/
theorem column_normalization_bounds_witness :
    0 ≤ minMaxScale (col_liq [⟨0, 0, 0, 0, 0, 0⟩]) 0 ∧
    minMaxScale (col_liq [⟨0, 0, 0, 0, 0, 0⟩]) 0 ≤ 1 ∧
    (colMin (col_liq [⟨0, 0, 0, 0, 0, 0⟩]) = colMax (col_liq [⟨0, 0, 0, 0, 0, 0⟩]) →
      minMaxScale (col_liq [⟨0, 0, 0, 0, 0, 0⟩]) 0 = 0) :=
  (column_normalization_bounds [⟨0, 0, 0, 0, 0, 0⟩] (col_liq [⟨0, 0, 0, 0, 0, 0⟩])
    (Or.inl rfl) 0 (by norm_num [col_liq])).2

lemma calc_borrowed_ratio (now : Int) (events : List Event) :
    (calculate_features now events).total_borrowed_usd
      = 0.4 * (calculate_features now events).total_supplied_usd := by
  unfold calculate_features
  split
  · norm_num
  · simp [mul_comm]

/-- C5: for every wallet's `WalletFeatures` produced by `calculate_features`
(including the empty-event case), `total_borrowed_usd` equals exactly
0.4 × `total_supplied_usd`. -/
theorem borrowed_eq_forty_percent_supplied (now : Int) (events : List Event) :
    (calculate_features now events).total_borrowed_usd
      = 0.4 * (calculate_features now events).total_supplied_usd :=
  calc_borrowed_ratio now events

/-- C6: for every wallet whose event sequence is empty, `calculate_features`
returns exactly the all-zero feature vector (all six fields zero). -/
theorem empty_events_all_zero_features (now : Int) :
    calculate_features now [] = ⟨0, 0, 0, 0, 0, 0⟩ := by
  simp [calculate_features]

lemma minMaxScale_singleton (c : ℚ) : minMaxScale [c] c = 0 := by
  simp [minMaxScale, colMin, colMax]

/-- C1 counterexample: in a concrete batch of exactly one wallet (with no
events) the emitted score is 50, not 0: the tie rule zeroes every
normalized column, but the `wallet_age_days` inversion then turns that
column into 1, contributing `0.05 * 1000`. -/
theorem single_wallet_score_fifty_not_zero :
    scoreBatch 0 [("w", [])] = [("w", 50)] ∧ (50 : Int) ≠ 0 := by
  constructor
  · norm_num [scoreBatch, weightedSum, minMaxScale, colMin, colMax, col_liq, col_health,
      col_liquidated, col_distinct, col_age, calculate_features, healthFactorProxy,
      astype_int]
  · decide

/-- C1 amended: in a batch of exactly one wallet every feature column has
min == max, every normalized column value is 0 by the tie rule, and --
because the `wallet_age_days` column is inverted after the tie rule,
giving it value 1 -- the single wallet's score is
`floor(0.05 * 1000) = 50`, for every event history and every clock. -/
theorem single_wallet_batch_score (now : Int) (w : String) (events : List Event) :
    (∀ xs, (xs = col_liq [calculate_features now events]
        ∨ xs = col_health [calculate_features now events]
        ∨ xs = col_liquidated [calculate_features now events]
        ∨ xs = col_distinct [calculate_features now events]
        ∨ xs = col_age [calculate_features now events]) →
      colMin xs = colMax xs) ∧
    scoreBatch now [(w, events)] = [(w, 50)] := by
  constructor
  · rintro xs (rfl | rfl | rfl | rfl | rfl) <;> rfl
  · have hws : weightedSum [calculate_features now events] (calculate_features now events)
        = 1 / 20 := by
      simp [weightedSum, col_liq, col_health, col_liquidated, col_distinct, col_age,
        minMaxScale_singleton]
      norm_num
    simp only [scoreBatch, List.map_cons, List.map_nil]
    rw [hws]
    norm_num [astype_int]

/-- Witness for C1's amended theorem at a concrete single-wallet batch. -/
theorem single_wallet_batch_score_witness :
    colMin (col_liq [calculate_features 0 []]) = colMax (col_liq [calculate_features 0 []]) ∧
    scoreBatch 0 [("x", [])] = [("x", 50)] :=
  ⟨(single_wallet_batch_score 0 "x" []).1 _ (Or.inl rfl),
   (single_wallet_batch_score 0 "x" []).2⟩

/-- C9: all wallets being fetchable or not, the pipeline (with a present API
key) produces exactly one score pair per input wallet, whose wallet ids
in output order are exactly the input wallet list, and exactly one
`Features` record per input wallet. -/
theorem one_score_per_wallet_in_order (now : Int) (wallets : List String)
    (api_key : Option String) (net : String → Option ApiResponse)
    (hk : key_missing api_key = false) :
    (generate_risk_scores now wallets api_key net).map Prod.fst = wallets ∧
    (generate_risk_scores now wallets api_key net).length = wallets.length ∧
    ((wallets.map (fun w => (w, fetch_real_transactions w (net w)))).map
      (fun p => calculate_features now p.2)).length = wallets.length := by
  refine ⟨?_, ?_, by simp⟩
  · by_cases hw : wallets = []
    · subst hw
      simp [generate_risk_scores]
    · simp [generate_risk_scores, hw, hk, scoreBatch, List.map_map, Function.comp]
      exact List.map_id wallets
  · by_cases hw : wallets = []
    · subst hw
      simp [generate_risk_scores]
    · simp [generate_risk_scores, hw, hk, scoreBatch]

/-- Witness for C9 on the concrete wallet list `["a"]` with a present key and
a failing network. -/
theorem one_score_per_wallet_in_order_witness :
    (generate_risk_scores 0 ["a"] (some "k") (fun _ => none)).map Prod.fst = ["a"] ∧
    (generate_risk_scores 0 ["a"] (some "k") (fun _ => none)).length
      = (["a"] : List String).length ∧
    (((["a"] : List String).map
        (fun w => (w, fetch_real_transactions w ((fun _ => none) w)))).map
      (fun p => calculate_features 0 p.2)).length = (["a"] : List String).length :=
  one_score_per_wallet_in_order 0 ["a"] (some "k") (fun _ => none) rfl

/-- C4 counterexample: with a nonempty wallet list and absent credentials the
run returns the empty output, which is exactly the output of the
empty-input no-op run -- the caller cannot distinguish the configuration
error from the empty-input outcome. -/
theorem missing_key_output_equals_empty_input_output :
    generate_risk_scores 0 ["0xabc"] none (fun _ => none)
      = generate_risk_scores 0 [] (some "key") (fun _ => none) ∧
    generate_risk_scores 0 ["0xabc"] none (fun _ => none) = [] := by
  constructor <;> rfl

/-- C4 amended: when the API key is absent or empty (and the wallet list is
nonempty), the run performs no fetch (its output is independent of the
network) and produces no partial results (the output is empty); this
outcome is distinct from a batch of per-wallet fetch failures, which
still yields one score per wallet -- but it is NOT distinct from the
empty-input no-op, whose output is the same empty list (the error is
signalled only on stdout). -/
theorem missing_key_behavior (now : Int) (wallets : List String)
    (api_key : Option String) (hk : key_missing api_key = true)
    (net net2 : String → Option ApiResponse) (valid_key : Option String)
    (hv : key_missing valid_key = false) (hw : wallets ≠ []) :
    generate_risk_scores now wallets api_key net = [] ∧
    generate_risk_scores now wallets api_key net
      = generate_risk_scores now wallets api_key net2 ∧
    (generate_risk_scores now wallets valid_key net2).length = wallets.length ∧
    generate_risk_scores now wallets api_key net
      ≠ generate_risk_scores now wallets valid_key net2 := by
  have h1 : generate_risk_scores now wallets api_key net = [] := by
    simp [generate_risk_scores, hk, hw]
  have h2 : generate_risk_scores now wallets api_key net2 = [] := by
    simp [generate_risk_scores, hk, hw]
  have h3 : (generate_risk_scores now wallets valid_key net2).length = wallets.length := by
    simp [generate_risk_scores, hk, hw, hv, scoreBatch]
  refine ⟨h1, h1.trans h2.symm, h3, ?_⟩
  intro hcontra
  apply hw
  have : (generate_risk_scores now wallets valid_key net2).length = 0 := by
    rw [← hcontra, h1]
    rfl
  rw [h3] at this
  exact List.length_eq_zero.mp this

/-- Witness for C4's amended theorem at concrete inputs. -/
theorem missing_key_behavior_witness :
    generate_risk_scores 0 ["a"] none (fun _ => none) = [] ∧
    generate_risk_scores 0 ["a"] none (fun _ => none)
      = generate_risk_scores 0 ["a"] none (fun _ => none) ∧
    (generate_risk_scores 0 ["a"] (some "k") (fun _ => none)).length
      = (["a"] : List String).length ∧
    generate_risk_scores 0 ["a"] none (fun _ => none)
      ≠ generate_risk_scores 0 ["a"] (some "k") (fun _ => none) :=
  missing_key_behavior 0 ["a"] none rfl (fun _ => none) (fun _ => none)
    (some "k") rfl (by decide)

/-- C7: the Event Fetcher is a total function that returns an empty sequence
(never an error) on a transport-level failure (`none`), on a non-success
API status, and when no transfer record survives the registry filtering. -/
theorem fetch_failure_returns_empty (wallet_address : String) :
    fetch_real_transactions wallet_address none = [] ∧
    (∀ data : ApiResponse, data.status ≠ "1" →
      fetch_real_transactions wallet_address (some data) = []) ∧
    (∀ data : ApiResponse,
      (∀ tx ∈ data.result, lookup_ctoken (lower tx.contractAddress) = none) →
      fetch_real_transactions wallet_address (some data) = []) := by
  refine ⟨rfl, ?_, ?_⟩
  · intro data h
    simp only [fetch_real_transactions]
    rw [if_neg h]
  · intro data h
    simp only [fetch_real_transactions]
    split
    · apply List.filterMap_eq_nil_iff.mpr
      intro tx htx
      rw [h tx htx]
      rfl
    · rfl

/-- Witness for C7: a transport failure, a status-'0' response, and a
status-'1' response whose only record has an unknown contract, all at
concrete inputs, each yielding the empty sequence. -/
theorem fetch_failure_returns_empty_witness :
    fetch_real_transactions "w" none = [] ∧
    fetch_real_transactions "w" (some ⟨"0", []⟩) = [] ∧
    fetch_real_transactions "w" (some ⟨"1", [⟨"0xdead", "w", 5, 0⟩]⟩) = [] :=
  ⟨(fetch_failure_returns_empty "w").1,
   (fetch_failure_returns_empty "w").2.1 ⟨"0", []⟩ (by decide),
   (fetch_failure_returns_empty "w").2.2 ⟨"1", [⟨"0xdead", "w", 5, 0⟩]⟩ (by decide)⟩

/-- C8: a retained transfer record is classified `Mint` (Supply) if and only
if its destination address equals the queried wallet id, compared
case-insensitively (both sides lower-cased); every other retained record
is classified `Redeem` (Withdraw). Moreover, on a success-status response
the fetcher builds each retained event with exactly this classification. -/
theorem classification_rule (wallet_address : String) (tx : RawTx) :
    (classify_event wallet_address tx = EventType.Mint ↔
      lower tx.toAddr = lower wallet_address) ∧
    (classify_event wallet_address tx = EventType.Redeem ↔
      lower tx.toAddr ≠ lower wallet_address) ∧
    (∀ data : ApiResponse, data.status = "1" →
      fetch_real_transactions wallet_address (some data)
        = data.result.filterMap (fun t =>
            (lookup_ctoken (lower t.contractAddress)).map (fun info =>
              ⟨t.timeStamp, classify_event wallet_address t, info.symbol,
                tx_value_usd t info⟩))) := by
  refine ⟨?_, ?_, ?_⟩
  · unfold classify_event
    by_cases h : lower tx.toAddr = lower wallet_address <;> simp [h]
  · unfold classify_event
    by_cases h : lower tx.toAddr = lower wallet_address <;> simp [h]
  · intro data h
    simp only [fetch_real_transactions]
    rw [if_pos h]

/-- Witness for C8: a destination differing from the wallet only in letter
case is classified `Mint`; a different destination is classified
`Redeem`; and the fetcher on a concrete success response. -/
theorem classification_rule_witness :
    classify_event "0xAb" ⟨"c", "0xaB", 1, 0⟩ = EventType.Mint ∧
    classify_event "0xAb" ⟨"c", "0xcd", 1, 0⟩ = EventType.Redeem ∧
    fetch_real_transactions "0xAb" (some ⟨"1", []⟩)
      = ([] : List RawTx).filterMap (fun t =>
          (lookup_ctoken (lower t.contractAddress)).map (fun info =>
            ⟨t.timeStamp, classify_event "0xAb" t, info.symbol, tx_value_usd t info⟩)) :=
  ⟨(classification_rule "0xAb" ⟨"c", "0xaB", 1, 0⟩).1.mpr (by decide),
   (classification_rule "0xAb" ⟨"c", "0xcd", 1, 0⟩).2.1.mpr (by decide),
   (classification_rule "0xAb" ⟨"c", "0xcd", 1, 0⟩).2.2 ⟨"1", []⟩ rfl⟩

/-! ### Health factor proxy facts (C10) -/

lemma lookup_price_nonneg (addr : String) (info : TokenInfo)
    (h : lookup_ctoken addr = some info) : 0 ≤ info.price_usd := by
  unfold lookup_ctoken at h
  rcases Option.map_eq_some'.mp h with ⟨p, hfind, rfl⟩
  have hmem := List.mem_of_find?_eq_some hfind
  simp only [get_compound_v2_ctokens, List.mem_cons, List.not_mem_nil, or_false] at hmem
  rcases hmem with rfl | rfl | rfl | rfl | rfl | rfl <;> norm_num

lemma fetch_event_value_nonneg (wallet_address : String) (resp : Option ApiResponse) :
    ∀ e ∈ fetch_real_transactions wallet_address resp, 0 ≤ e.value_usd := by
  intro e he
  cases resp with
  | none => simp [fetch_real_transactions] at he
  | some data =>
    simp only [fetch_real_transactions] at he
    split at he
    · rcases List.mem_filterMap.mp he with ⟨tx, _, hmap⟩
      rcases Option.map_eq_some'.mp hmap with ⟨info, hl, rfl⟩
      show 0 ≤ tx_value_usd tx info
      unfold tx_value_usd
      have hp := lookup_price_nonneg _ _ hl
      have hd : (0 : ℚ) ≤ (tx.value : ℚ) / 10 ^ info.underlying_decimals := by positivity
      exact mul_nonneg hd hp
    · simp at he

lemma supplied_nonneg (now : Int) (wallet_address : String) (resp : Option ApiResponse) :
    0 ≤ (wallet_features now wallet_address resp).total_supplied_usd := by
  unfold wallet_features calculate_features
  split
  · norm_num
  · show (0 : ℚ) ≤ (((fetch_real_transactions wallet_address resp).filter
      (fun e => e.event_type = EventType.Mint)).map Event.value_usd).sum
    apply List.sum_nonneg
    intro x hx
    rcases List.mem_map.mp hx with ⟨e, hef, rfl⟩
    exact fetch_event_value_nonneg wallet_address resp e (List.mem_of_mem_filter hef)

lemma hfp_formula (f : Features)
    (hb : f.total_borrowed_usd = 0.4 * f.total_supplied_usd) :
    healthFactorProxy f
      = 0.4 * f.total_supplied_usd / (f.total_supplied_usd + 1 / 1000000) := by
  unfold healthFactorProxy
  rw [hb]

lemma hfp_nonneg (s : ℚ) (hs : 0 ≤ s) : 0 ≤ 0.4 * s / (s + 1 / 1000000) :=
  div_nonneg (by linarith) (by linarith)

lemma hfp_lt (s : ℚ) (hs : 0 ≤ s) : 0.4 * s / (s + 1 / 1000000) < 0.4 := by
  rw [div_lt_iff₀ (by linarith)]
  nlinarith

lemma hfp_zero_iff (s : ℚ) (hs : 0 ≤ s) :
    0.4 * s / (s + 1 / 1000000) = 0 ↔ s = 0 := by
  constructor
  · intro h
    rcases div_eq_zero_iff.mp h with h1 | h1
    · linarith
    · exfalso
      linarith
  · intro h
    rw [h]
    norm_num

lemma hfp_strict_mono (s t : ℚ) (hs : 0 ≤ s) (hst : s < t) :
    0.4 * s / (s + 1 / 1000000) < 0.4 * t / (t + 1 / 1000000) := by
  rw [div_lt_div_iff₀ (by linarith) (by linarith)]
  nlinarith

/-- C10 (implicit): for every wallet of the pipeline, the derived
`health_factor_proxy` equals `0.4 * s / (s + 1e-6)` for
`s = total_supplied_usd ≥ 0`; it lies in the half-open interval [0, 0.4),
equals 0 exactly when `s = 0`, and is strictly increasing in `s` (stated
for any two wallets whose supplied totals are ordered). -/
theorem health_factor_proxy_properties (now now2 : Int) (w w2 : String)
    (r r2 : Option ApiResponse)
    (hlt : (wallet_features now w r).total_supplied_usd
      < (wallet_features now2 w2 r2).total_supplied_usd) :
    healthFactorProxy (wallet_features now w r)
      = 0.4 * (wallet_features now w r).total_supplied_usd
        / ((wallet_features now w r).total_supplied_usd + 1 / 1000000) ∧
    0 ≤ healthFactorProxy (wallet_features now w r) ∧
    healthFactorProxy (wallet_features now w r) < 0.4 ∧
    (healthFactorProxy (wallet_features now w r) = 0 ↔
      (wallet_features now w r).total_supplied_usd = 0) ∧
    healthFactorProxy (wallet_features now w r)
      < healthFactorProxy (wallet_features now2 w2 r2) := by
  have hs := supplied_nonneg now w r
  have hs2 := supplied_nonneg now2 w2 r2
  have hb : (wallet_features now w r).total_borrowed_usd
      = 0.4 * (wallet_features now w r).total_supplied_usd :=
    calc_borrowed_ratio now (fetch_real_transactions w r)
  have hb2 : (wallet_features now2 w2 r2).total_borrowed_usd
      = 0.4 * (wallet_features now2 w2 r2).total_supplied_usd :=
    calc_borrowed_ratio now2 (fetch_real_transactions w2 r2)
  have hf := hfp_formula _ hb
  have hf2 := hfp_formula _ hb2
  refine ⟨hf, ?_, ?_, ?_, ?_⟩
  · rw [hf]
    exact hfp_nonneg _ hs
  · rw [hf]
    exact hfp_lt _ hs
  · rw [hf]
    exact hfp_zero_iff _ hs
  · rw [hf, hf2]
    exact hfp_strict_mono _ _ hs hlt

/-- Witness for C10: an inactive wallet (transport failure, supplied 0)
against a wallet with one retained cUSDC mint of 1 USDC (supplied 1). -/
theorem health_factor_proxy_properties_witness :
    healthFactorProxy (wallet_features 0 "a" none)
      = 0.4 * (wallet_features 0 "a" none).total_supplied_usd
        / ((wallet_features 0 "a" none).total_supplied_usd + 1 / 1000000) ∧
    0 ≤ healthFactorProxy (wallet_features 0 "a" none) ∧
    healthFactorProxy (wallet_features 0 "a" none) < 0.4 ∧
    (healthFactorProxy (wallet_features 0 "a" none) = 0 ↔
      (wallet_features 0 "a" none).total_supplied_usd = 0) ∧
    healthFactorProxy (wallet_features 0 "a" none)
      < healthFactorProxy (wallet_features 0 "b" (some ⟨"1",
          [⟨"0x39aa39c021dfbae8fac545936693ac917d5e7563", "b", 1000000, 0⟩]⟩)) :=
  health_factor_proxy_properties 0 0 "a" "b" none
    (some ⟨"1", [⟨"0x39aa39c021dfbae8fac545936693ac917d5e7563", "b", 1000000, 0⟩]⟩)
    (by
      have e3 : lookup_ctoken (lower "0x39aa39c021dfbae8fac545936693ac917d5e7563")
          = some ⟨"cUSDC", 6, 1⟩ := by decide
      have h1 : wallet_features 0 "a" none = ⟨0, 0, 0, 0, 0, 0⟩ := rfl
      rw [h1]
      simp [wallet_features, fetch_real_transactions, e3, classify_event,
        calculate_features, tx_value_usd])

end RiskAnalyzer
